import Mathlib

/-!
Shallow embedding of `src/python/bls_search.py` (Box Least Squares transit
search).  Python/numpy floating-point values are modelled as real numbers;
decimal literals denote the exact rationals they spell.  Division follows the
real-field convention `x / 0 = 0`; the IEEE-NaN behaviour of empty phase bins
is modelled separately with `Option ℝ` (`none` = NaN) in the section on
degenerate bins.  Python 2 integer division and `int()` truncation (which on
the nonnegative operands occurring here equals `Int.floor`) are modelled with
`Nat` division and `Int.floor`/`Int.toNat`.
-/

/-- Mean of a list of reals, `numpy.mean`: sum divided by length (an empty
list yields `0/0 = 0` here; the source produces NaN, treated in the
degenerate-bin section). -/
noncomputable def listMean (l : List ℝ) : ℝ := l.sum / l.length

/-- One column of `flux_array.sort(axis=0)`: numpy sorts the entries of each
column independently of the other columns. -/
noncomputable def sortR (l : List ℝ) : List ℝ :=
  List.insertionSort (fun a b : ℝ => a ≤ b) l

/-- Sorted time column of the input array (`flux_array[:,0]` after
`sort(axis=0)`). -/
noncomputable def col_times (fl : List (ℝ × ℝ × ℝ)) : List ℝ :=
  sortR (fl.map fun r => r.1)

/-- Sorted flux column of the input array (`flux_array[:,1]` after
`sort(axis=0)`). -/
noncomputable def col_flux (fl : List (ℝ × ℝ × ℝ)) : List ℝ :=
  sortR (fl.map fun r => r.2.1)

/-- Sorted flux-error column of the input array (`flux_array[:,2]` after
`sort(axis=0)`). -/
noncomputable def col_err (fl : List (ℝ × ℝ × ℝ)) : List ℝ :=
  sortR (fl.map fun r => r.2.2)

/-- The rows of the array produced by `flux_array.sort(axis=0)`: each column
is sorted on its own, so row `i` pairs the `i`-th smallest time with the
`i`-th smallest flux and the `i`-th smallest error. -/
noncomputable def sorted_rows (fl : List (ℝ × ℝ × ℝ)) : List (ℝ × ℝ × ℝ) :=
  (col_times fl).zip ((col_flux fl).zip (col_err fl))

/-- `intime[-1] - intime[0]`, the span of the (column-sorted) time values. -/
noncomputable def time_span (fl : List (ℝ × ℝ × ℝ)) : ℝ :=
  (col_times fl).getLastD 0 - (col_times fl).headI

/-- `check_period` (source lines 26-31): raises when `maxper` exceeds the
time range `intime[-1] - intime[0]`. -/
noncomputable def check_period (intime : List ℝ) (maxper : ℝ) : Except Unit Unit :=
  if intime.getLastD 0 - intime.headI < maxper then .error () else .ok ()

/-- `compute_weights` (source lines 33-39): normalized inverse-square
dispersion weights `omega` and the weighted curve `s = omega * work4`.
`numpy.nansum` coincides with the plain sum on the NaN-free values modelled
here.  NOTE: this function is defined in the source but never invoked. -/
noncomputable def compute_weights (work4 work5 : List ℝ) : List ℝ × List ℝ :=
  let sigmaSum := (work5.map fun x => x ^ (-2 : ℤ)).sum
  let omega := work5.map fun x => x ^ (-2 : ℤ) / sigmaSum
  let s := (omega.zip work4).map fun p => p.1 * p.2
  (s, omega)

/-- Phase-bin index of a sample (source lines 83-85):
`int((t*frequency - floor(t*frequency)) * nbins)`; the operand is
nonnegative, so the `int` cast truncation equals the floor. -/
noncomputable def binIndex (t freq : ℝ) (nbins : ℕ) : ℤ :=
  ⌊(t * freq - ⌊t * freq⌋) * (nbins : ℝ)⌋

/-- The samples assigned to phase bin `i` (source line 90:
`numpy.nonzero(phsort[:,2] == float(i))`).  The source sorts the rows by
phase first; the sort is stable and only the selected rows' multiset enters
the later means, so selecting directly from the unsorted rows is equivalent. -/
noncomputable def bin_elems (pts : List (ℝ × ℝ × ℝ)) (freq : ℝ) (nbins i : ℕ) :
    List (ℝ × ℝ × ℝ) :=
  pts.filter fun p => decide (binIndex p.1 freq nbins = (i : ℤ))

/-- Number of samples in each of the `nbins` phase bins (the `len(elements)`
of source line 93, one entry per bin). -/
noncomputable def binPopulations (pts : List (ℝ × ℝ × ℝ)) (freq : ℝ) (nbins : ℕ) :
    List ℕ :=
  (List.range nbins).map fun i => (bin_elems pts freq nbins i).length

/-- `compute_folded` (source lines 76-97).  `pts` zips the zero-based times
`work1`, centered fluxes `work2` and errors `inerr` (row `i` of the
rotated `ptuple` is `(inerr[i], work2[i], phase[i])`, sorted by phase; see
`bin_elems`).  `work4[i]` is the mean centered flux of bin `i`, `work5[i]`
the root mean square of the errors of bin `i`; both arrays are extended by
their first `duration2` entries (wraparound). -/
noncomputable def compute_folded (nbins : ℕ) (work1 work2 inerr : List ℝ)
    (trialFrequency : ℝ) (duration2 : ℕ) : List ℝ × List ℝ :=
  let pts := work1.zip (work2.zip inerr)
  let work4 := (List.range nbins).map fun i =>
    listMean ((bin_elems pts trialFrequency nbins i).map fun p => p.2.1)
  let work5 := (List.range nbins).map fun i =>
    Real.sqrt ((((bin_elems pts trialFrequency nbins i).map fun p => p.2.2 ^ 2).sum) /
      ((bin_elems pts trialFrequency nbins i).length : ℝ))
  (work4 ++ work4.take duration2, work5 ++ work5.take duration2)

/-- `initialize_iteration` (source lines 99-116), the per-period scalars:
trial frequency, minimum/maximum transit durations in quantized phase units
and the half-hour step, in this order.  (The source also appends the
sentinel entries to the running arrays; that append is modelled in
`period_iteration`.)  `int()` truncation equals floor followed by `toNat`
on the nonnegative operands arising from positive parameters. -/
noncomputable def init_iteration (trialPeriod mindur maxdur : ℝ) (nbins : ℕ) :
    ℝ × ℕ × ℕ × ℕ :=
  let trialFrequency := 1 / trialPeriod
  let duration1 := max (⌊(nbins : ℝ) * mindur / 24 / trialPeriod⌋.toNat) 2
  let duration2 := max (⌊(nbins : ℝ) * maxdur / 24 / trialPeriod⌋.toNat + 1) (duration1 + 1)
  let halfHour := (⌊(0.02083333 : ℝ) / trialPeriod * (nbins : ℝ) + 1⌋).toNat
  (trialFrequency, duration1, duration2, halfHour)

/-- Python `range(a, b, step)` for `step ≥ 1`: `a, a+step, ...` strictly
below `b`. -/
def rangeStep (a b step : ℕ) : List ℕ :=
  (List.range ((b - a + step - 1) / step)).map fun k => a + k * step

/-- The `(i1, duration)` pairs scanned by `iterate_trialp_durations`
(source lines 71-73): `i1 in range(nbins)` outer, `duration in
range(duration1, duration2 + 1, halfHour)` inner. -/
def windows (nbins d1 d2 hh : ℕ) : List (ℕ × ℕ) :=
  (List.range nbins).flatMap fun i1 => (rangeStep d1 (d2 + 1) hh).map fun d => (i1, d)

/-- `sum(omega[i1:i1+d])`, the window sum of source line 56 (`sr2`). -/
noncomputable def window_sum (l : List ℝ) (i1 d : ℕ) : ℝ :=
  ((l.drop i1).take d).sum

/-- `sum(power(s[i1:i1+d], 2))`, the window sum of source line 55 (`sr1`). -/
noncomputable def window_sum_sq (l : List ℝ) (i1 d : ℕ) : ℝ :=
  (((l.drop i1).take d).map fun x => x ^ 2).sum

/-- The signal-residue statistic of one window (source line 58):
`sqrt(abs(sr1 / (sr2 * (1.0 - sr2))))`. -/
noncomputable def sub_iterate_stat (i1 d : ℕ) (s omega : List ℝ) : ℝ :=
  Real.sqrt |window_sum_sq s i1 d /
    (window_sum omega i1 d * (1 - window_sum omega i1 d))|

/-- `sub_iterate` (source lines 52-63) acting on the last entries of the
running arrays, modelled as a state triple `(srMax, transitDuration,
transitPhase)`.  `(i1 + i2) / 2` is Python 2 integer division.  The
`Option ℝ` components model the NaN sentinels the entries hold until first
updated. -/
noncomputable def sub_iterate (i1 d : ℕ) (s omega : List ℝ)
    (acc : ℝ × Option ℝ × Option ℝ) : ℝ × Option ℝ × Option ℝ :=
  let sr := sub_iterate_stat i1 d s omega
  if acc.1 < sr then (sr, some (d : ℝ), some (((i1 + (i1 + d)) / 2 : ℕ) : ℝ)) else acc

/-- `iterate_trialp_durations` (source lines 65-74): fold `sub_iterate`
over all scanned windows in source order. -/
noncomputable def iterate_trialp_durations (s omega : List ℝ) (nbins d1 d2 hh : ℕ)
    (acc : ℝ × Option ℝ × Option ℝ) : ℝ × Option ℝ × Option ℝ :=
  (windows nbins d1 d2 hh).foldl (fun a w => sub_iterate w.1 w.2 s omega a) acc

/-- The work one `period_iteration` call (source lines 118-147) performs on
the last entries of the running arrays: compute the per-period scalars, fold
the series, and run the window scan starting from the freshly appended
sentinel entry `(0.0, nan, nan)`.  Source line 140 binds
`s, omega = (work4, work5)` directly: `compute_weights` is not invoked, so
the raw dispersion array `work5` is used as `omega`. -/
noncomputable def period_entry (trialPeriod : ℝ) (nbins : ℕ) (mindur maxdur : ℝ)
    (work1 work2 inerr : List ℝ) : ℝ × Option ℝ × Option ℝ :=
  let ini := init_iteration trialPeriod mindur maxdur nbins
  let folded := compute_folded nbins work1 work2 inerr ini.1 ini.2.2.1
  let s := folded.1
  let omega := folded.2
  iterate_trialp_durations s omega nbins ini.2.1 ini.2.2.1 ini.2.2.2 (0, none, none)

/-- `period_iteration` (source lines 118-147): append the best window found
for this trial period to the running arrays. -/
noncomputable def period_iteration (trialPeriod : ℝ) (nbins : ℕ) (mindur maxdur : ℝ)
    (work1 work2 inerr : List ℝ) (srMax : List ℝ)
    (transitDuration transitPhase : List (Option ℝ)) :
    List ℝ × List (Option ℝ) × List (Option ℝ) :=
  let res := period_entry trialPeriod nbins mindur maxdur work1 work2 inerr
  (srMax ++ [res.1], transitDuration ++ [res.2.1], transitPhase ++ [res.2.2])

/-- `numpy.arange(start, stop, step)` for positive `step`, in exact real
arithmetic: `ceil((stop - start) / step)` points `start + i * step`. -/
noncomputable def nparange (start stop step : ℝ) : List ℝ :=
  (List.range (⌈(stop - start) / step⌉.toNat)).map fun (i : ℕ) => start + (i : ℝ) * step

/-- `numpy.max` of a list (the source only applies it to nonempty lists;
an empty list yields the junk value `headI [] = 0`). -/
noncomputable def npmax (l : List ℝ) : ℝ := l.foldl max l.headI

/-- `compute_maximum_residual_curve` (source lines 41-49): global best
statistic, first index attaining it, the normalized curve, and the
per-period physical-unit conversions of duration and phase. -/
noncomputable def compute_maximum_residual_curve (srMax trialPeriods : List ℝ)
    (transitPhase transitDuration : List (Option ℝ)) (intime : List ℝ) (nbins : ℕ) :
    ℝ × List ℝ × ℕ × List (Option ℝ) × List (Option ℝ) :=
  let bestSr := npmax srMax
  let bestTrial := srMax.findIdx fun x => decide (x = bestSr)
  let srMax2 := srMax.map fun x => x / bestSr
  let transitDuration2 := (transitDuration.zip trialPeriods).map fun p =>
    p.1.map fun v => v * p.2 / 24
  let BJD0 := (transitPhase.zip trialPeriods).map fun p =>
    p.1.map fun v => v * p.2 / (nbins : ℝ) + intime.headI + 2454833.0
  (bestSr, srMax2, bestTrial, transitDuration2, BJD0)

/-- `work1 = intime - intime[0]` (source line 197): zero-based times. -/
noncomputable def bls_work1 (fl : List (ℝ × ℝ × ℝ)) : List ℝ :=
  (col_times fl).map fun t => t - (col_times fl).headI

/-- `work2 = indata - numpy.mean(indata)` (source line 198): globally
mean-centered fluxes. -/
noncomputable def bls_work2 (fl : List (ℝ × ℝ × ℝ)) : List ℝ :=
  (col_flux fl).map fun x => x - listMean (col_flux fl)

/-- The trial-period grid of source lines 206-207:
`numpy.arange(minper, maxper + dPeriod, dPeriod)` with
`dPeriod = (maxper - minper) / nsearch`. -/
noncomputable def bls_trialPeriods (minper maxper : ℝ) (nsearch : ℕ) : List ℝ :=
  nparange minper (maxper + (maxper - minper) / (nsearch : ℝ))
    ((maxper - minper) / (nsearch : ℝ))

/-- The per-period best statistics accumulated by the period loop (the
`srMax` array reaching source line 216), one entry per trial period. -/
noncomputable def bls_srMax (fl : List (ℝ × ℝ × ℝ)) (minper maxper mindur maxdur : ℝ)
    (nsearch nbins : ℕ) : List ℝ :=
  (bls_trialPeriods minper maxper nsearch).map fun P =>
    (period_entry P nbins mindur maxdur (bls_work1 fl) (bls_work2 fl) (col_err fl)).1

/-- The computation `bls_search` performs after `check_period` has passed
(source lines 202-220): grid construction, the fold of `period_iteration`
over the trial periods (starting from empty running arrays), and the
finalizer.  Output order follows source line 220:
`(bestSr, srmax, bestTrial, trialPeriods, transitDuration, BJD0)`. -/
noncomputable def bls_core (fl : List (ℝ × ℝ × ℝ)) (minper maxper mindur maxdur : ℝ)
    (nsearch nbins : ℕ) :
    ℝ × List ℝ × ℕ × List ℝ × List (Option ℝ) × List (Option ℝ) :=
  let trialPeriods := bls_trialPeriods minper maxper nsearch
  let res := trialPeriods.foldl
    (fun acc P => period_iteration P nbins mindur maxdur (bls_work1 fl) (bls_work2 fl)
      (col_err fl) acc.1 acc.2.1 acc.2.2)
    ([], [], [])
  let fin := compute_maximum_residual_curve res.1 trialPeriods res.2.2 res.2.1
    (col_times fl) nbins
  (fin.1, fin.2.1, fin.2.2.1, trialPeriods, fin.2.2.2.1, fin.2.2.2.2)

/-- `bls_search` (source lines 149-220): the `isfinite` filter keeps every
row of the real-valued samples modelled here, `check_period` aborts the call
with no result when `maxper` exceeds the time span, and otherwise the search
runs to completion. -/
noncomputable def bls_search (fl : List (ℝ × ℝ × ℝ)) (minper maxper mindur maxdur : ℝ)
    (nsearch nbins : ℕ) :
    Except Unit (ℝ × List ℝ × ℕ × List ℝ × List (Option ℝ) × List (Option ℝ)) :=
  match check_period (col_times fl) maxper with
  | .error e => .error e
  | .ok _ => .ok (bls_core fl minper maxper mindur maxdur nsearch nbins)

/-!
NaN-aware model of the folded-bin statistics.  IEEE NaN values (which the
real-number model above cannot express) are modelled as `none : Option ℝ`.
NaN arises in the source exactly where these definitions produce `none`:
`numpy.mean` of an empty slice, the `0.0/0` dispersion of an empty bin, and
any arithmetic or `numpy.sum` touching a NaN.  A comparison `sr > srMax[-1]`
with `sr = NaN` is `False` in Python, which the `none` branch of
`sub_iterateN` reproduces.
-/

/-- `numpy.sum` over possibly-NaN values: one NaN poisons the sum. -/
def sumN : List (Option ℝ) → Option ℝ
  | [] => some 0
  | a :: t =>
    match a, sumN t with
    | some x, some y => some (x + y)
    | _, _ => none

/-- `work4[i] = numpy.mean(phsort[elements,1])` (source line 91): the mean
of the fluxes of bin `i`, NaN when the bin is empty. -/
noncomputable def binMeanN (xs : List ℝ) : Option ℝ :=
  if xs.isEmpty then none else some (xs.sum / (xs.length : ℝ))

/-- `work5[i] = sqrt(sum(power(phsort[elements,0],2))/len(elements))`
(source lines 92-93): root mean square of the errors of bin `i`, NaN when
the bin is empty (`0.0/0` under numpy warning semantics). -/
noncomputable def binDispN (errs : List ℝ) : Option ℝ :=
  if errs.isEmpty then none
  else some (Real.sqrt (((errs.map fun e => e ^ 2).sum) / (errs.length : ℝ)))

/-- The window statistic of source lines 54-58 over possibly-NaN bins:
NaN in either window sum yields a NaN statistic. -/
noncomputable def sub_iterate_statN (i1 d : ℕ) (s omega : List (Option ℝ)) : Option ℝ :=
  match sumN (((s.drop i1).take d).map (Option.map fun x => x ^ 2)),
      sumN ((omega.drop i1).take d) with
  | some a, some b => some (Real.sqrt |a / (b * (1 - b))|)
  | _, _ => none

/-- The running-maximum update of source lines 59-60 on possibly-NaN
statistics: `NaN > srMax[-1]` is `False`, so a NaN statistic leaves the
running maximum unchanged. -/
noncomputable def sub_iterateN (i1 d : ℕ) (s omega : List (Option ℝ)) (acc : ℝ) : ℝ :=
  match sub_iterate_statN i1 d s omega with
  | none => acc
  | some sr => if acc < sr then sr else acc

/-- The window scan of one trial period over possibly-NaN bins. -/
noncomputable def iterateWindowsN (ws : List (ℕ × ℕ)) (s omega : List (Option ℝ))
    (acc : ℝ) : ℝ :=
  ws.foldl (fun a w => sub_iterateN w.1 w.2 s omega a) acc

/-! Helper lemmas. -/

lemma bls_floor_eval {x : ℝ} {z : ℤ} (h1 : (z : ℝ) ≤ x) (h2 : x < z + 1) : ⌊x⌋ = z :=
  Int.floor_eq_iff.mpr ⟨h1, h2⟩

lemma bls_sqrt_four : Real.sqrt 4 = 2 := by
  rw [show (4 : ℝ) = 2 ^ 2 by norm_num]
  exact Real.sqrt_sq (by norm_num)

lemma bls_sqrt_two_lt_two : Real.sqrt 2 < 2 := by
  have h := Real.sqrt_lt_sqrt (by norm_num : (0 : ℝ) ≤ 2) (by norm_num : (2 : ℝ) < 4)
  rwa [bls_sqrt_four] at h

lemma bls_sum_take (f : ℝ → ℝ) (hf : f 0 = 0) :
    ∀ (d : ℕ) (m : List ℝ),
      ((m.take d).map f).sum = ∑ j ∈ Finset.range d, f (m.getD j 0) := by
  intro d
  induction d with
  | zero => intro m; simp
  | succ d ih =>
    intro m
    cases m with
    | nil => simp [hf]
    | cons a t =>
      rw [List.take_succ_cons, List.map_cons, List.sum_cons, ih t,
        Finset.sum_range_succ']
      simp [add_comm]

lemma bls_getD_drop (l : List ℝ) (i j : ℕ) : (l.drop i).getD j 0 = l.getD (i + j) 0 := by
  rw [List.getD_eq_getElem?_getD, List.getD_eq_getElem?_getD, List.getElem?_drop]

lemma bls_window_sum_eq (l : List ℝ) (i d : ℕ) :
    window_sum l i d = ∑ j ∈ Finset.range d, l.getD (i + j) 0 := by
  have h := bls_sum_take (fun x => x) rfl d (l.drop i)
  simp only [List.map_id'] at h
  rw [window_sum, h]
  exact Finset.sum_congr rfl fun j _ => bls_getD_drop l i j

lemma bls_window_sum_sq_eq (l : List ℝ) (i d : ℕ) :
    window_sum_sq l i d = ∑ j ∈ Finset.range d, (l.getD (i + j) 0) ^ 2 := by
  have h := bls_sum_take (fun x => x ^ 2) (by norm_num) d (l.drop i)
  rw [window_sum_sq, h]
  exact Finset.sum_congr rfl fun j _ => by rw [bls_getD_drop l i j]

lemma bls_le_foldl_max (l : List ℝ) : ∀ a : ℝ, a ≤ l.foldl max a := by
  induction l with
  | nil => intro a; simp
  | cons b t ih =>
    intro a
    exact le_trans (le_max_left a b) (ih (max a b))

lemma bls_mem_le_foldl_max (l : List ℝ) : ∀ (a x : ℝ), x ∈ l → x ≤ l.foldl max a := by
  induction l with
  | nil => intro a x hx; simp at hx
  | cons b t ih =>
    intro a x hx
    rcases List.mem_cons.mp hx with h | h
    · subst h
      exact le_trans (le_max_right a x) (bls_le_foldl_max t (max a x))
    · exact ih (max a b) x h

lemma bls_foldl_max_mem (l : List ℝ) : ∀ a : ℝ, l.foldl max a = a ∨ l.foldl max a ∈ l := by
  induction l with
  | nil => intro a; left; rfl
  | cons b t ih =>
    intro a
    rcases ih (max a b) with h | h
    · rcases max_choice a b with hm | hm
      · left; rw [List.foldl_cons, h, hm]
      · right; rw [List.foldl_cons, h, hm]; exact List.mem_cons_self b t
    · right; exact List.mem_cons_of_mem b h

lemma bls_npmax_mem (l : List ℝ) (h : l ≠ []) : npmax l ∈ l := by
  rcases bls_foldl_max_mem l l.headI with hm | hm
  · rw [npmax, hm]
    cases l with
    | nil => exact absurd rfl h
    | cons a t => exact List.mem_cons_self a t
  · exact hm

lemma bls_le_npmax (l : List ℝ) (x : ℝ) (hx : x ∈ l) : x ≤ npmax l :=
  bls_mem_le_foldl_max l l.headI x hx

lemma bls_sum_map_range (f : ℕ → ℕ) : ∀ n : ℕ,
    ((List.range n).map f).sum = ∑ j ∈ Finset.range n, f j := by
  intro n
  induction n with
  | zero => simp
  | succ n ih =>
    rw [List.range_succ, List.map_append, List.sum_append, Finset.sum_range_succ, ih]
    simp

lemma bls_filter_partition (key : (ℝ × ℝ × ℝ) → ℤ) (n : ℕ)
    (hkey : ∀ p, 0 ≤ key p ∧ key p < n) :
    ∀ pts : List (ℝ × ℝ × ℝ),
      (∑ i ∈ Finset.range n, (pts.filter fun p => decide (key p = (i : ℤ))).length) =
        pts.length := by
  intro pts
  induction pts with
  | nil => simp
  | cons a t ih =>
    have hstep : ∀ i ∈ Finset.range n,
        ((a :: t).filter fun p => decide (key p = (i : ℤ))).length =
          (if key a = (i : ℤ) then 1 else 0) +
            (t.filter fun p => decide (key p = (i : ℤ))).length := by
      intro i _
      by_cases hk : key a = (i : ℤ)
      · simp [List.filter_cons, hk]
        omega
      · simp [List.filter_cons, hk]
    rw [Finset.sum_congr rfl hstep, Finset.sum_add_distrib, ih]
    have hk := hkey a
    have hka : key a = ((key a).toNat : ℤ) := (Int.toNat_of_nonneg hk.1).symm
    have hsum : (∑ i ∈ Finset.range n, if key a = (i : ℤ) then 1 else 0) = 1 := by
      have hmem : (key a).toNat ∈ Finset.range n := by
        rw [Finset.mem_range]
        omega
      calc (∑ i ∈ Finset.range n, if key a = (i : ℤ) then 1 else 0)
          = ∑ i ∈ Finset.range n, if i = (key a).toNat then 1 else 0 := by
            refine Finset.sum_congr rfl fun i _ => ?_
            have hiff : (key a = (i : ℤ)) ↔ (i = (key a).toNat) := by omega
            rw [if_congr hiff rfl rfl]
        _ = 1 := by rw [Finset.sum_ite_eq' (Finset.range n) ((key a).toNat) fun _ => 1,
              if_pos hmem]
    rw [hsum]
    simp [List.length_cons]
    omega

lemma bls_sub_iterate_fst_nonneg (i1 d : ℕ) (s omega : List ℝ)
    (acc : ℝ × Option ℝ × Option ℝ) (h : 0 ≤ acc.1) :
    0 ≤ (sub_iterate i1 d s omega acc).1 := by
  rw [sub_iterate]
  split
  · exact Real.sqrt_nonneg _
  · exact h

lemma bls_iterate_fst_nonneg (ws : List (ℕ × ℕ)) (s omega : List ℝ) :
    ∀ acc : ℝ × Option ℝ × Option ℝ, 0 ≤ acc.1 →
      0 ≤ (ws.foldl (fun a w => sub_iterate w.1 w.2 s omega a) acc).1 := by
  induction ws with
  | nil => intro acc h; exact h
  | cons w t ih =>
    intro acc h
    exact ih _ (bls_sub_iterate_fst_nonneg w.1 w.2 s omega acc h)

lemma bls_period_entry_nonneg (P : ℝ) (nbins : ℕ) (mindur maxdur : ℝ)
    (w1 w2 ie : List ℝ) : 0 ≤ (period_entry P nbins mindur maxdur w1 w2 ie).1 := by
  rw [period_entry]
  exact bls_iterate_fst_nonneg _ _ _ _ le_rfl

lemma bls_fold_periods (nbins : ℕ) (mindur maxdur : ℝ) (w1 w2 ie : List ℝ) :
    ∀ (tps : List ℝ) (init : List ℝ × List (Option ℝ) × List (Option ℝ)),
      tps.foldl (fun acc P => period_iteration P nbins mindur maxdur w1 w2 ie
          acc.1 acc.2.1 acc.2.2) init =
        (init.1 ++ tps.map (fun P => (period_entry P nbins mindur maxdur w1 w2 ie).1),
         init.2.1 ++ tps.map (fun P => (period_entry P nbins mindur maxdur w1 w2 ie).2.1),
         init.2.2 ++ tps.map (fun P => (period_entry P nbins mindur maxdur w1 w2 ie).2.2)) := by
  intro tps
  induction tps with
  | nil => intro init; simp
  | cons P t ih =>
    intro init
    rw [List.foldl_cons, ih]
    simp [period_iteration]

lemma bls_findIdx_eq_spec (l : List ℝ) (m : ℝ) (hm : m ∈ l) :
    l.findIdx (fun x => decide (x = m)) < l.length ∧
    l.getD (l.findIdx (fun x => decide (x = m))) 0 = m ∧
    ∀ j < l.findIdx (fun x => decide (x = m)), l.getD j 0 ≠ m := by
  have hlt : l.findIdx (fun x => decide (x = m)) < l.length :=
    List.findIdx_lt_length_of_exists ⟨m, hm, by simp⟩
  refine ⟨hlt, ?_, ?_⟩
  · have := @List.findIdx_getElem _ (fun x => decide (x = m)) l hlt
    rw [List.getD_eq_getElem l 0 hlt]
    simpa using this
  · intro j hj
    have hjl : j < l.length := lt_trans hj hlt
    have := List.not_of_lt_findIdx hj
    rw [List.getD_eq_getElem l 0 hjl]
    simpa using this

/-! Claim theorems. -/

/-- C3: for every window (phase start `i1`, duration `d`) over the folded
profile, the statistic computed by `sub_iterate` equals
`sqrt(|signalPower / (weightSum * (1 - weightSum))|)` where `signalPower` is
the sum of the squared `binMean` (`work4`) entries over bins `[i1, i1+d)`
and `weightSum` is the window sum of the `omega` array; the absolute value
makes the radicand nonnegative, so the square root is defined (no abort)
also when `weightSum > 1`. -/
theorem c3_window_statistic (nbins : ℕ) (work1 work2 inerr : List ℝ) (freq : ℝ)
    (duration2 : ℕ) (i1 d : ℕ) :
    (sub_iterate_stat i1 d (compute_folded nbins work1 work2 inerr freq duration2).1
        (compute_folded nbins work1 work2 inerr freq duration2).2 =
      Real.sqrt |(∑ j ∈ Finset.range d,
          ((compute_folded nbins work1 work2 inerr freq duration2).1.getD (i1 + j) 0) ^ 2) /
        ((∑ j ∈ Finset.range d,
          (compute_folded nbins work1 work2 inerr freq duration2).2.getD (i1 + j) 0) *
          (1 - ∑ j ∈ Finset.range d,
            (compute_folded nbins work1 work2 inerr freq duration2).2.getD (i1 + j) 0))|) ∧
    ∀ s omega : List ℝ,
      0 ≤ |window_sum_sq s i1 d / (window_sum omega i1 d * (1 - window_sum omega i1 d))| := by
  constructor
  · rw [sub_iterate_stat, bls_window_sum_sq_eq, bls_window_sum_eq]
  · intro s omega
    exact abs_nonneg _

lemma bls_grid_spec (minper maxper : ℝ) (nsearch : ℕ)
    (h1 : minper < maxper) (h2 : 0 < nsearch) :
    (bls_trialPeriods minper maxper nsearch).length = nsearch + 1 ∧
    ∀ k < nsearch + 1,
      (bls_trialPeriods minper maxper nsearch).getD k 0 =
        minper + (k : ℝ) * ((maxper - minper) / (nsearch : ℝ)) := by
  rw [bls_trialPeriods]
  have hns : ((nsearch : ℝ)) ≠ 0 := Nat.cast_ne_zero.mpr (Nat.pos_iff_ne_zero.mp h2)
  set d := (maxper - minper) / (nsearch : ℝ) with hdd
  have hd : (0 : ℝ) < d := by
    rw [hdd]
    apply div_pos (by linarith)
    exact_mod_cast h2
  have hspan : maxper - minper = (nsearch : ℝ) * d := by
    rw [hdd]
    field_simp
  have hratio : (maxper + d - minper) / d = ((nsearch : ℝ) + 1) := by
    rw [show maxper + d - minper = (maxper - minper) + d by ring, hspan]
    field_simp
    ring
  have hceil : ⌈(maxper + d - minper) / d⌉.toNat = nsearch + 1 := by
    rw [hratio, show ((nsearch : ℝ) + 1) = ((nsearch + 1 : ℕ) : ℝ) by push_cast; ring,
      Int.ceil_natCast]
    simp
  constructor
  · rw [nparange, hceil, List.length_map, List.length_range]
  · intro k hk
    rw [nparange, hceil, List.getD_eq_getElem _ _
      (by rw [List.length_map, List.length_range]; exact hk)]
    rw [List.getElem_map, List.getElem_range]

/-- C6: for `minper < maxper` and `nsearch ≥ 1` the trial-period grid of
`bls_search` has exactly `nsearch + 1` entries, the `k`-th being
`minper + k * (maxper - minper) / nsearch` (so the last one overshoots
`maxper` by one step only through exact inclusive-endpoint arithmetic). -/
theorem c6_trial_period_grid (minper maxper : ℝ) (nsearch : ℕ)
    (h1 : minper < maxper) (h2 : 0 < nsearch) :
    (bls_trialPeriods minper maxper nsearch).length = nsearch + 1 ∧
    ∀ k < nsearch + 1,
      (bls_trialPeriods minper maxper nsearch).getD k 0 =
        minper + (k : ℝ) * ((maxper - minper) / (nsearch : ℝ)) :=
  bls_grid_spec minper maxper nsearch h1 h2

/-- C7: for positive `nbins` every sample receives the bin index
`floor((t * freq - floor(t * freq)) * nbins)`, an integer in `[0, nbins)`,
and the populations of the `nbins` bins sum to the number of samples. -/
theorem c7_phase_binning (nbins : ℕ) (hn : 0 < nbins) :
    (∀ t freq : ℝ, 0 ≤ binIndex t freq nbins ∧ binIndex t freq nbins < (nbins : ℤ)) ∧
    ∀ (pts : List (ℝ × ℝ × ℝ)) (freq : ℝ),
      (binPopulations pts freq nbins).sum = pts.length := by
  have hrange : ∀ t freq : ℝ,
      0 ≤ binIndex t freq nbins ∧ binIndex t freq nbins < (nbins : ℤ) := by
    intro t freq
    rw [binIndex]
    set x := t * freq with hx
    have h0 : 0 ≤ x - ⌊x⌋ := sub_nonneg.mpr (Int.floor_le x)
    have h1 : x - ⌊x⌋ < 1 := by
      have := Int.lt_floor_add_one x
      linarith
    constructor
    · exact Int.floor_nonneg.mpr (mul_nonneg h0 (Nat.cast_nonneg nbins))
    · apply Int.floor_lt.mpr
      push_cast
      calc (x - ⌊x⌋) * (nbins : ℝ) < 1 * (nbins : ℝ) := by
            apply mul_lt_mul_of_pos_right h1
            exact_mod_cast hn
        _ = (nbins : ℝ) := one_mul _
  refine ⟨hrange, ?_⟩
  intro pts freq
  rw [binPopulations, bls_sum_map_range]
  have := bls_filter_partition (fun p => binIndex p.1 freq nbins) nbins
    (fun p => hrange p.1 freq) pts
  simpa [bin_elems] using this

/-- C9: `bls_search` is a pure function of the time series and the six
scalar parameters; two calls with identical inputs return identical
results (no randomness, clock, or other hidden state enters the model). -/
theorem c9_deterministic (fl : List (ℝ × ℝ × ℝ)) (minper maxper mindur maxdur : ℝ)
    (nsearch nbins : ℕ) :
    bls_search fl minper maxper mindur maxdur nsearch nbins =
      bls_search fl minper maxper mindur maxdur nsearch nbins := rfl

/-- Witness for C6 at `minper = 1`, `maxper = 2`, `nsearch = 1`. -/
theorem c6_witness :
    (1 : ℝ) < 2 ∧ 0 < 1 ∧
    (bls_trialPeriods 1 2 1).length = 1 + 1 ∧
    (bls_trialPeriods 1 2 1).getD 1 0 =
      1 + ((1 : ℕ) : ℝ) * ((2 - 1) / ((1 : ℕ) : ℝ)) :=
  ⟨by norm_num, by norm_num,
    (c6_trial_period_grid 1 2 1 (by norm_num) (by norm_num)).1,
    (c6_trial_period_grid 1 2 1 (by norm_num) (by norm_num)).2 1 (by norm_num)⟩

/-- Witness for C7 at `nbins = 2` with a concrete sample and sample list. -/
theorem c7_witness :
    0 < 2 ∧
    (0 ≤ binIndex (3 / 2) (1 / 3) 2 ∧ binIndex (3 / 2) (1 / 3) 2 < ((2 : ℕ) : ℤ)) ∧
    (binPopulations [((0 : ℝ), (1 : ℝ), (1 : ℝ)), ((3 : ℝ), (4 : ℝ), (5 : ℝ))] (1 / 3) 2).sum =
      ([((0 : ℝ), (1 : ℝ), (1 : ℝ)), ((3 : ℝ), (4 : ℝ), (5 : ℝ))] : List (ℝ × ℝ × ℝ)).length :=
  ⟨by norm_num, (c7_phase_binning 2 (by norm_num)).1 (3 / 2) (1 / 3),
    (c7_phase_binning 2 (by norm_num)).2 _ (1 / 3)⟩

/-- C4: for a nonempty sample list, `bls_search` raises (returns `.error`,
carrying no partial result) exactly when `maxper` exceeds the time span
`intime[-1] - intime[0]` of the preprocessed series, and otherwise the
period check lets the search run to completion. -/
theorem c4_period_check (fl : List (ℝ × ℝ × ℝ)) (minper maxper mindur maxdur : ℝ)
    (nsearch nbins : ℕ) (h : fl ≠ []) :
    (bls_search fl minper maxper mindur maxdur nsearch nbins = .error () ↔
      time_span fl < maxper) ∧
    (¬ time_span fl < maxper →
      bls_search fl minper maxper mindur maxdur nsearch nbins =
        .ok (bls_core fl minper maxper mindur maxdur nsearch nbins)) := by
  have hudef : bls_search fl minper maxper mindur maxdur nsearch nbins =
      match (if (col_times fl).getLastD 0 - (col_times fl).headI < maxper then
          (Except.error () : Except Unit Unit) else Except.ok ()) with
      | .error e => .error e
      | .ok _ => .ok (bls_core fl minper maxper mindur maxdur nsearch nbins) := rfl
  by_cases hc : (col_times fl).getLastD 0 - (col_times fl).headI < maxper
  · refine ⟨?_, ?_⟩
    · rw [hudef, if_pos hc]
      exact iff_of_true rfl (by rw [time_span]; exact hc)
    · intro hcc
      exact absurd (show time_span fl < maxper by rw [time_span]; exact hc) hcc
  · refine ⟨?_, ?_⟩
    · rw [hudef, if_neg hc]
      exact iff_of_false (by simp) (by rw [time_span]; exact hc)
    · intro _
      rw [hudef, if_neg hc]

/-- Witness for C4 at a two-sample series of span 1 and `maxper = 2`. -/
theorem c4_witness :
    ([((0 : ℝ), (1 : ℝ), (1 : ℝ)), ((1 : ℝ), (1 : ℝ), (1 : ℝ))] : List (ℝ × ℝ × ℝ)) ≠ [] ∧
    (bls_search [((0 : ℝ), (1 : ℝ), (1 : ℝ)), ((1 : ℝ), (1 : ℝ), (1 : ℝ))] 1 2 0 1 1 1 =
        .error () ↔
      time_span [((0 : ℝ), (1 : ℝ), (1 : ℝ)), ((1 : ℝ), (1 : ℝ), (1 : ℝ))] < 2) :=
  ⟨by simp,
    (c4_period_check [((0 : ℝ), (1 : ℝ), (1 : ℝ)), ((1 : ℝ), (1 : ℝ), (1 : ℝ))]
      1 2 0 1 1 1 (by simp)).1⟩

/-- C8: an empty phase bin yields NaN (`none`) for both its mean and its
dispersion without raising, and a trial period all of whose window
statistics are NaN leaves the running maximum at its initial value, since
`NaN > srMax[-1]` is false; such periods are skipped, not fatal. -/
theorem c8_degenerate_bins (ws : List (ℕ × ℕ)) (s omega : List (Option ℝ)) (init : ℝ)
    (h : ∀ w ∈ ws, sub_iterate_statN w.1 w.2 s omega = none) :
    (binMeanN [] = none ∧ binDispN [] = none) ∧
    iterateWindowsN ws s omega init = init := by
  refine ⟨⟨by simp [binMeanN], by simp [binDispN]⟩, ?_⟩
  have key : ∀ ws' : List (ℕ × ℕ),
      (∀ w ∈ ws', sub_iterate_statN w.1 w.2 s omega = none) →
      ∀ init' : ℝ,
        ws'.foldl (fun a w => sub_iterateN w.1 w.2 s omega a) init' = init' := by
    intro ws'
    induction ws' with
    | nil => intro _ init'; rfl
    | cons w t ih =>
      intro hh init'
      rw [List.foldl_cons]
      have hw : sub_iterateN w.1 w.2 s omega init' = init' := by
        rw [sub_iterateN, hh w (List.mem_cons_self w t)]
      rw [hw]
      exact ih (fun w' hw' => hh w' (List.mem_cons_of_mem w hw')) init'
  exact key ws h init

/-- Witness for C8: one window over a NaN-contaminated signal array. -/
theorem c8_witness :
    (∀ w ∈ ([((0 : ℕ), (1 : ℕ))] : List (ℕ × ℕ)),
      sub_iterate_statN w.1 w.2 [(none : Option ℝ)] [some 1] = none) ∧
    ((binMeanN [] = none ∧ binDispN [] = none) ∧
      iterateWindowsN [((0 : ℕ), (1 : ℕ))] [(none : Option ℝ)] [some 1] 0 = 0) := by
  have hh : ∀ w ∈ ([((0 : ℕ), (1 : ℕ))] : List (ℕ × ℕ)),
      sub_iterate_statN w.1 w.2 [(none : Option ℝ)] [some 1] = none := by
    intro w hw
    simp only [List.mem_singleton] at hw
    subst hw
    rfl
  exact ⟨hh, c8_degenerate_bins [((0 : ℕ), (1 : ℕ))] [(none : Option ℝ)] [some 1] 0 hh⟩

/-- C10: the finalizer returns as `bestTrial` the first (smallest) index at
which `srMax` attains its maximum `bestSr = numpy.max(srMax)`; `bestSr`
equals the statistic stored at that index and bounds every entry. -/
theorem c10_tie_break (srMax trialPeriods : List ℝ)
    (transitPhase transitDuration : List (Option ℝ)) (intime : List ℝ) (nbins : ℕ)
    (h : srMax ≠ []) :
    (compute_maximum_residual_curve srMax trialPeriods transitPhase transitDuration
        intime nbins).2.2.1 < srMax.length ∧
    srMax.getD ((compute_maximum_residual_curve srMax trialPeriods transitPhase
        transitDuration intime nbins).2.2.1) 0 =
      (compute_maximum_residual_curve srMax trialPeriods transitPhase transitDuration
        intime nbins).1 ∧
    (∀ j < (compute_maximum_residual_curve srMax trialPeriods transitPhase
        transitDuration intime nbins).2.2.1,
      srMax.getD j 0 ≠ (compute_maximum_residual_curve srMax trialPeriods transitPhase
        transitDuration intime nbins).1) ∧
    ∀ x ∈ srMax, x ≤ (compute_maximum_residual_curve srMax trialPeriods transitPhase
        transitDuration intime nbins).1 := by
  have h1 : (compute_maximum_residual_curve srMax trialPeriods transitPhase
      transitDuration intime nbins).1 = npmax srMax := rfl
  have h2 : (compute_maximum_residual_curve srMax trialPeriods transitPhase
      transitDuration intime nbins).2.2.1 =
      srMax.findIdx (fun x => decide (x = npmax srMax)) := rfl
  rw [h1, h2]
  obtain ⟨ha, hb, hc⟩ := bls_findIdx_eq_spec srMax (npmax srMax) (bls_npmax_mem srMax h)
  exact ⟨ha, hb, hc, fun x hx => bls_le_npmax srMax x hx⟩

/-- Witness for C10 on the curve `[2, 1, 2]` (tie between indices 0 and 2). -/
theorem c10_witness :
    (([2, 1, 2] : List ℝ) ≠ []) ∧
    (compute_maximum_residual_curve [2, 1, 2] [] [] [] [] 0).2.2.1 <
      ([2, 1, 2] : List ℝ).length ∧
    ([2, 1, 2] : List ℝ).getD
        ((compute_maximum_residual_curve [2, 1, 2] [] [] [] [] 0).2.2.1) 0 =
      (compute_maximum_residual_curve [2, 1, 2] [] [] [] [] 0).1 :=
  ⟨by simp, (c10_tie_break [2, 1, 2] [] [] [] [] 0 (by simp)).1,
    (c10_tie_break [2, 1, 2] [] [] [] [] 0 (by simp)).2.1⟩

lemma bls_core_eq (fl : List (ℝ × ℝ × ℝ)) (minper maxper mindur maxdur : ℝ)
    (nsearch nbins : ℕ) :
    (bls_core fl minper maxper mindur maxdur nsearch nbins).1 =
      npmax (bls_srMax fl minper maxper mindur maxdur nsearch nbins) ∧
    (bls_core fl minper maxper mindur maxdur nsearch nbins).2.1 =
      (bls_srMax fl minper maxper mindur maxdur nsearch nbins).map
        (fun x => x / npmax (bls_srMax fl minper maxper mindur maxdur nsearch nbins)) ∧
    (bls_core fl minper maxper mindur maxdur nsearch nbins).2.2.1 =
      (bls_srMax fl minper maxper mindur maxdur nsearch nbins).findIdx
        (fun x => decide (x =
          npmax (bls_srMax fl minper maxper mindur maxdur nsearch nbins))) := by
  rw [bls_core, bls_fold_periods]
  simp only [List.nil_append, compute_maximum_residual_curve, bls_srMax]
  refine ⟨?_, ?_, ?_⟩ <;> trivial

/-- C5 (amended): whenever the search returns, the normalized curve has
`nsearch + 1` entries; whenever additionally the best per-period statistic
is positive, every entry lies in `[0, 1]` and the entry at `bestTrial`
equals 1.  (Without positivity of `bestSr` — e.g. for a constant-flux
series, where every window statistic is zero — the normalization divides by
zero and the peak entry is not 1.) -/
theorem c5_normalized_curve (fl : List (ℝ × ℝ × ℝ)) (minper maxper mindur maxdur : ℝ)
    (nsearch nbins : ℕ) (hn : 0 < nsearch) (hlt : minper < maxper)
    (hspan : ¬ time_span fl < maxper) :
    bls_search fl minper maxper mindur maxdur nsearch nbins =
      .ok (bls_core fl minper maxper mindur maxdur nsearch nbins) ∧
    (bls_core fl minper maxper mindur maxdur nsearch nbins).2.1.length = nsearch + 1 ∧
    (0 < (bls_core fl minper maxper mindur maxdur nsearch nbins).1 →
      (∀ x ∈ (bls_core fl minper maxper mindur maxdur nsearch nbins).2.1,
        0 ≤ x ∧ x ≤ 1) ∧
      (bls_core fl minper maxper mindur maxdur nsearch nbins).2.1.getD
        ((bls_core fl minper maxper mindur maxdur nsearch nbins).2.2.1) 0 = 1) := by
  obtain ⟨hc1, hc2, hc3⟩ := bls_core_eq fl minper maxper mindur maxdur nsearch nbins
  set srM := bls_srMax fl minper maxper mindur maxdur nsearch nbins with hsrM
  set B := npmax srM with hB
  have hlen : srM.length = nsearch + 1 := by
    rw [hsrM, bls_srMax, List.length_map]
    exact (bls_grid_spec minper maxper nsearch hlt hn).1
  have hne : srM ≠ [] := by
    intro hnil
    rw [hnil] at hlen
    simp at hlen
  refine ⟨?_, ?_, ?_⟩
  · have hudef : bls_search fl minper maxper mindur maxdur nsearch nbins =
        match (if (col_times fl).getLastD 0 - (col_times fl).headI < maxper then
            (Except.error () : Except Unit Unit) else Except.ok ()) with
        | .error e => .error e
        | .ok _ => .ok (bls_core fl minper maxper mindur maxdur nsearch nbins) := rfl
    rw [hudef, if_neg (by rw [time_span] at hspan; exact hspan)]
  · rw [hc2, List.length_map]
    exact hlen
  · intro hpos
    have hBpos : 0 < B := hc1 ▸ hpos
    have hnn : ∀ x ∈ srM, 0 ≤ x := by
      intro x hx
      rw [hsrM, bls_srMax] at hx
      obtain ⟨P, _, hPx⟩ := List.mem_map.mp hx
      rw [← hPx]
      exact bls_period_entry_nonneg P nbins mindur maxdur _ _ _
    have hle : ∀ x ∈ srM, x ≤ B := fun x hx => bls_le_npmax srM x hx
    obtain ⟨hkl, hkv, _⟩ := bls_findIdx_eq_spec srM B (bls_npmax_mem srM hne)
    constructor
    · intro x hx
      rw [hc2] at hx
      obtain ⟨y, hy, hyx⟩ := List.mem_map.mp hx
      rw [← hyx]
      refine ⟨div_nonneg (hnn y hy) (le_of_lt hBpos), ?_⟩
      rw [div_le_one hBpos]
      exact hle y hy
    · rw [hc2, hc3]
      have hkl2 : srM.findIdx (fun x => decide (x = B)) <
          (srM.map fun x => x / B).length := by
        rw [List.length_map]
        exact hkl
      rw [List.getD_eq_getElem _ _ hkl2, List.getElem_map]
      have hval : srM[srM.findIdx (fun x => decide (x = B))] = B := by
        rw [← List.getD_eq_getElem srM 0 hkl]
        exact hkv
      rw [hval]
      exact div_self (ne_of_gt hBpos)

/-- C1 (code bug): the weights entering the window sum `sr2` are NOT the
normalized inverse-square dispersion weights of `compute_weights`:
source line 140 binds `s, omega = (work4, work5)` and `compute_weights` is
never called.  On the folded profile of the single sample
`(time 0, flux 1, error 2)` with one bin (`work4 = [1,1]`,
`work5 = [2,2]` after padding), the window `[0,1)` weight sum the code uses
is `2`, whereas the normalized weights of `compute_weights` (which sum to 1
over the full bin set) give `1/2`. -/
theorem c1_weights_bypassed :
    (compute_folded 1 [0] [1] [2] 1 1).2 = [2, 2] ∧
    window_sum (compute_folded 1 [0] [1] [2] 1 1).2 0 1 = 2 ∧
    (compute_weights (compute_folded 1 [0] [1] [2] 1 1).1
        (compute_folded 1 [0] [1] [2] 1 1).2).2 = [1 / 2, 1 / 2] ∧
    window_sum (compute_weights (compute_folded 1 [0] [1] [2] 1 1).1
        (compute_folded 1 [0] [1] [2] 1 1).2).2 0 1 = 1 / 2 ∧
    (2 : ℝ) ≠ 1 / 2 := by
  have hfold : compute_folded 1 [0] [1] [2] 1 1 = ([1, 1], [2, 2]) := by
    have hbin : binIndex 0 1 1 = 0 := by simp [binIndex]
    simp only [compute_folded, bin_elems, listMean, List.range_succ, List.range_zero,
      List.map_cons, List.map_nil, List.zip_cons_cons, List.zip_nil_right,
      List.nil_append, List.filter, hbin]
    norm_num
    exact bls_sqrt_four
  rw [hfold]
  refine ⟨rfl, by norm_num [window_sum], ?_, ?_, by norm_num⟩
  · norm_num [compute_weights]
  · norm_num [compute_weights, window_sum]

/-- C2 (code bug): `flux_array.sort(axis=0)` sorts every column
independently, so output rows are not input rows.  On the input
`[(2, 10, 1/10), (1, 20, 1/5)]` the first output row is `(1, 10, 1/10)`,
pairing time 1 with flux 10, although the input sample at time 1 has
flux 20; `(1, 10, 1/10)` is not a row of the input. -/
theorem c2_rows_scrambled :
    sorted_rows [((2 : ℝ), (10 : ℝ), (1 / 10 : ℝ)), ((1 : ℝ), (20 : ℝ), (1 / 5 : ℝ))] =
      [(1, 10, 1 / 10), (2, 20, 1 / 5)] ∧
    ((1 : ℝ), (10 : ℝ), (1 / 10 : ℝ)) ∉
      [((2 : ℝ), (10 : ℝ), (1 / 10 : ℝ)), ((1 : ℝ), (20 : ℝ), (1 / 5 : ℝ))] := by
  constructor
  · have ht : col_times [((2 : ℝ), (10 : ℝ), (1 / 10 : ℝ)), ((1 : ℝ), (20 : ℝ), (1 / 5 : ℝ))] =
        [1, 2] := by
      norm_num [col_times, sortR, List.insertionSort, List.orderedInsert]
    have hf : col_flux [((2 : ℝ), (10 : ℝ), (1 / 10 : ℝ)), ((1 : ℝ), (20 : ℝ), (1 / 5 : ℝ))] =
        [10, 20] := by
      norm_num [col_flux, sortR, List.insertionSort, List.orderedInsert]
    have he : col_err [((2 : ℝ), (10 : ℝ), (1 / 10 : ℝ)), ((1 : ℝ), (20 : ℝ), (1 / 5 : ℝ))] =
        [1 / 10, 1 / 5] := by
      norm_num [col_err, sortR, List.insertionSort, List.orderedInsert]
    rw [sorted_rows, ht, hf, he]
    rfl
  · intro hmem
    simp only [List.mem_cons, List.not_mem_nil, or_false, Prod.mk.injEq] at hmem
    rcases hmem with ⟨h1, _⟩ | ⟨_, h2, _⟩
    · norm_num at h1
    · norm_num at h2

lemma bls_ce_cols :
    col_times [((0 : ℝ), (5 : ℝ), (1 : ℝ)), ((1 / 2 : ℝ), (5 : ℝ), (1 : ℝ))] = [0, 1 / 2] ∧
    col_flux [((0 : ℝ), (5 : ℝ), (1 : ℝ)), ((1 / 2 : ℝ), (5 : ℝ), (1 : ℝ))] = [5, 5] ∧
    col_err [((0 : ℝ), (5 : ℝ), (1 : ℝ)), ((1 / 2 : ℝ), (5 : ℝ), (1 : ℝ))] = [1, 1] := by
  refine ⟨?_, ?_, ?_⟩ <;>
    norm_num [col_times, col_flux, col_err, sortR, List.insertionSort, List.orderedInsert]

lemma bls_ce_works :
    bls_work1 [((0 : ℝ), (5 : ℝ), (1 : ℝ)), ((1 / 2 : ℝ), (5 : ℝ), (1 : ℝ))] = [0, 1 / 2] ∧
    bls_work2 [((0 : ℝ), (5 : ℝ), (1 : ℝ)), ((1 / 2 : ℝ), (5 : ℝ), (1 : ℝ))] = [0, 0] := by
  obtain ⟨ht, hf, _⟩ := bls_ce_cols
  constructor
  · rw [bls_work1, ht]
    norm_num [List.headI]
  · rw [bls_work2, hf]
    norm_num [listMean]

lemma bls_ce_grid : bls_trialPeriods (2 / 5) (1 / 2) 1 = [2 / 5, 1 / 2] := by
  rw [bls_trialPeriods, nparange]
  have harg : ((1 : ℝ) / 2 + ((1 : ℝ) / 2 - 2 / 5) / ((1 : ℕ) : ℝ) - 2 / 5) /
      (((1 : ℝ) / 2 - 2 / 5) / ((1 : ℕ) : ℝ)) = 2 := by
    norm_num
  rw [harg, show (2 : ℝ) = ((2 : ℕ) : ℝ) by norm_num, Int.ceil_natCast,
    show ((2 : ℕ) : ℤ).toNat = 2 from rfl, show List.range 2 = [0, 1] from rfl]
  norm_num

lemma bls_ce_entry (P f : ℝ) (hinit : init_iteration P 0 (1 / 2) 1 = (f, 2, 3, 1))
    (hb0 : binIndex 0 f 1 = 0) (hb1 : binIndex (1 / 2) f 1 = 0) :
    period_entry P 1 0 (1 / 2) [0, 1 / 2] [0, 0] [1, 1] = (0, none, none) := by
  have hfold : compute_folded 1 [0, 1 / 2] [0, 0] [1, 1] f 3 = ([0, 0], [1, 1]) := by
    simp only [compute_folded, bin_elems, listMean, List.range_succ, List.range_zero,
      List.map_cons, List.map_nil, List.zip_cons_cons, List.zip_nil_right,
      List.nil_append, List.filter, hb0, hb1]
    norm_num
  have hs1 : sub_iterate 0 2 [0, 0] [1, 1] (0, none, none) = (0, none, none) := by
    have hstat : sub_iterate_stat 0 2 [0, 0] [1, 1] = 0 := by
      rw [sub_iterate_stat]
      norm_num [window_sum, window_sum_sq]
    rw [sub_iterate, hstat]
    norm_num
  have hs2 : sub_iterate 0 3 [0, 0] [1, 1] (0, none, none) = (0, none, none) := by
    have hstat : sub_iterate_stat 0 3 [0, 0] [1, 1] = 0 := by
      rw [sub_iterate_stat]
      norm_num [window_sum, window_sum_sq]
    rw [sub_iterate, hstat]
    norm_num
  simp only [period_entry, hinit]
  simp only [hfold]
  rw [iterate_trialp_durations, show windows 1 2 3 1 = [(0, 2), (0, 3)] from rfl]
  simp only [List.foldl_cons, List.foldl_nil, hs1, hs2]

lemma bls_ce_srMax :
    bls_srMax [((0 : ℝ), (5 : ℝ), (1 : ℝ)), ((1 / 2 : ℝ), (5 : ℝ), (1 : ℝ))]
      (2 / 5) (1 / 2) 0 (1 / 2) 1 1 = [0, 0] := by
  obtain ⟨_, _, he⟩ := bls_ce_cols
  obtain ⟨hw1, hw2⟩ := bls_ce_works
  have he1 : period_entry (2 / 5) 1 0 (1 / 2) [0, 1 / 2] [0, 0] [1, 1] = (0, none, none) :=
    bls_ce_entry (2 / 5) (5 / 2)
      (by rw [init_iteration]; norm_num [Prod.ext_iff])
      (by norm_num [binIndex]) (by norm_num [binIndex])
  have he2 : period_entry (1 / 2) 1 0 (1 / 2) [0, 1 / 2] [0, 0] [1, 1] = (0, none, none) :=
    bls_ce_entry (1 / 2) 2
      (by rw [init_iteration]; norm_num [Prod.ext_iff])
      (by norm_num [binIndex]) (by norm_num [binIndex])
  rw [bls_srMax, bls_ce_grid, hw1, hw2, he]
  simp only [List.map_cons, List.map_nil, he1, he2]

/-- C5 (counterexample): on the constant-flux series
`[(0, 5, 1), (1/2, 5, 1)]` with `minper = 2/5`, `maxper = 1/2`,
`mindur = 0`, `maxdur = 1/2`, `nsearch = 1`, `nbins = 1`, the search
returns, yet the normalized-curve entry at `bestTrial` is not 1: every
window statistic is zero, so `bestSr = 0` and the normalization divides by
zero (NaN in the source, 0 in the real model — in both cases not 1). -/
theorem c5_counterexample :
    bls_search [((0 : ℝ), (5 : ℝ), (1 : ℝ)), ((1 / 2 : ℝ), (5 : ℝ), (1 : ℝ))]
        (2 / 5) (1 / 2) 0 (1 / 2) 1 1 =
      .ok (bls_core [((0 : ℝ), (5 : ℝ), (1 : ℝ)), ((1 / 2 : ℝ), (5 : ℝ), (1 : ℝ))]
        (2 / 5) (1 / 2) 0 (1 / 2) 1 1) ∧
    (bls_core [((0 : ℝ), (5 : ℝ), (1 : ℝ)), ((1 / 2 : ℝ), (5 : ℝ), (1 : ℝ))]
        (2 / 5) (1 / 2) 0 (1 / 2) 1 1).2.1.getD
      ((bls_core [((0 : ℝ), (5 : ℝ), (1 : ℝ)), ((1 / 2 : ℝ), (5 : ℝ), (1 : ℝ))]
        (2 / 5) (1 / 2) 0 (1 / 2) 1 1).2.2.1) 0 ≠ 1 := by
  obtain ⟨ht, _, _⟩ := bls_ce_cols
  constructor
  · have hspan : ¬ (col_times [((0 : ℝ), (5 : ℝ), (1 : ℝ)),
        ((1 / 2 : ℝ), (5 : ℝ), (1 : ℝ))]).getLastD 0 -
        (col_times [((0 : ℝ), (5 : ℝ), (1 : ℝ)),
          ((1 / 2 : ℝ), (5 : ℝ), (1 : ℝ))]).headI < (1 / 2 : ℝ) := by
      rw [ht, show ([0, (1 : ℝ) / 2]).getLastD 0 = 1 / 2 from rfl,
        show ([0, (1 : ℝ) / 2]).headI = 0 from rfl]
      norm_num
    have hudef : bls_search [((0 : ℝ), (5 : ℝ), (1 : ℝ)), ((1 / 2 : ℝ), (5 : ℝ), (1 : ℝ))]
        (2 / 5) (1 / 2) 0 (1 / 2) 1 1 =
        match (if (col_times [((0 : ℝ), (5 : ℝ), (1 : ℝ)),
            ((1 / 2 : ℝ), (5 : ℝ), (1 : ℝ))]).getLastD 0 -
            (col_times [((0 : ℝ), (5 : ℝ), (1 : ℝ)),
              ((1 / 2 : ℝ), (5 : ℝ), (1 : ℝ))]).headI < (1 / 2 : ℝ) then
            (Except.error () : Except Unit Unit) else Except.ok ()) with
        | .error e => .error e
        | .ok _ => .ok (bls_core [((0 : ℝ), (5 : ℝ), (1 : ℝ)),
            ((1 / 2 : ℝ), (5 : ℝ), (1 : ℝ))] (2 / 5) (1 / 2) 0 (1 / 2) 1 1) := rfl
    rw [hudef, if_neg hspan]
  · obtain ⟨_, hc2, hc3⟩ := bls_core_eq
      [((0 : ℝ), (5 : ℝ), (1 : ℝ)), ((1 / 2 : ℝ), (5 : ℝ), (1 : ℝ))] (2 / 5) (1 / 2) 0 (1 / 2) 1 1
    rw [bls_ce_srMax] at hc2 hc3
    have hmax : npmax [(0 : ℝ), 0] = 0 := by
      rw [npmax]
      norm_num [List.headI, List.foldl]
    rw [hmax] at hc2 hc3
    have hidx : ([(0 : ℝ), 0]).findIdx (fun x => decide (x = 0)) = 0 := by
      rw [List.findIdx_cons, show (decide ((0 : ℝ) = 0)) = true from decide_eq_true rfl]
      rfl
    rw [hc2, hc3, hidx]
    norm_num

lemma bls_w5_cols :
    col_times [((0 : ℝ), (4 : ℝ), (1 : ℝ)), ((3 / 4 : ℝ), (8 : ℝ), (1 : ℝ))] = [0, 3 / 4] ∧
    col_flux [((0 : ℝ), (4 : ℝ), (1 : ℝ)), ((3 / 4 : ℝ), (8 : ℝ), (1 : ℝ))] = [4, 8] ∧
    col_err [((0 : ℝ), (4 : ℝ), (1 : ℝ)), ((3 / 4 : ℝ), (8 : ℝ), (1 : ℝ))] = [1, 1] := by
  refine ⟨?_, ?_, ?_⟩ <;>
    norm_num [col_times, col_flux, col_err, sortR, List.insertionSort, List.orderedInsert]

lemma bls_w5_works :
    bls_work1 [((0 : ℝ), (4 : ℝ), (1 : ℝ)), ((3 / 4 : ℝ), (8 : ℝ), (1 : ℝ))] = [0, 3 / 4] ∧
    bls_work2 [((0 : ℝ), (4 : ℝ), (1 : ℝ)), ((3 / 4 : ℝ), (8 : ℝ), (1 : ℝ))] = [-2, 2] := by
  obtain ⟨ht, hf, _⟩ := bls_w5_cols
  constructor
  · rw [bls_work1, ht]
    norm_num [List.headI]
  · rw [bls_work2, hf]
    norm_num [listMean]

lemma bls_w5_grid : bls_trialPeriods (1 / 2) (3 / 4) 1 = [1 / 2, 3 / 4] := by
  rw [bls_trialPeriods, nparange]
  have harg : ((3 : ℝ) / 4 + ((3 : ℝ) / 4 - 1 / 2) / ((1 : ℕ) : ℝ) - 1 / 2) /
      (((3 : ℝ) / 4 - 1 / 2) / ((1 : ℕ) : ℝ)) = 2 := by
    norm_num
  rw [harg, show (2 : ℝ) = ((2 : ℕ) : ℝ) by norm_num, Int.ceil_natCast,
    show ((2 : ℕ) : ℤ).toNat = 2 from rfl, show List.range 2 = [0, 1] from rfl]
  norm_num

lemma bls_w5_entry1 :
    period_entry (1 / 2) 2 0 (1 / 2) [0, 3 / 4] [-2, 2] [1, 1] = (2, some 2, some 1) := by
  have hinit : init_iteration (1 / 2) 0 (1 / 2) 2 = (2, 2, 3, 1) := by
    rw [init_iteration]
    norm_num [Prod.ext_iff]
  have hfold : compute_folded 2 [0, 3 / 4] [-2, 2] [1, 1] 2 3 =
      ([-2, 2, -2, 2], [1, 1, 1, 1]) := by
    have hb0 : binIndex 0 2 2 = 0 := by norm_num [binIndex]
    have hb1 : binIndex (3 / 4) 2 2 = 1 := by norm_num [binIndex]
    simp only [compute_folded, bin_elems, listMean, List.range_succ, List.range_zero,
      List.map_cons, List.map_nil, List.zip_cons_cons, List.zip_nil_right,
      List.nil_append, List.filter, hb0, hb1]
    norm_num
  have hsA : sub_iterate 0 2 [-2, 2, -2, 2] [1, 1, 1, 1] (0, none, none) =
      (2, some 2, some 1) := by
    have hstat : sub_iterate_stat 0 2 [-2, 2, -2, 2] [1, 1, 1, 1] = 2 := by
      rw [sub_iterate_stat]
      norm_num [window_sum, window_sum_sq]
      exact bls_sqrt_four
    rw [sub_iterate, hstat]
    norm_num
  have hsB : sub_iterate 0 3 [-2, 2, -2, 2] [1, 1, 1, 1] (2, some 2, some 1) =
      (2, some 2, some 1) := by
    have hstat : sub_iterate_stat 0 3 [-2, 2, -2, 2] [1, 1, 1, 1] = Real.sqrt 2 := by
      rw [sub_iterate_stat]
      norm_num [window_sum, window_sum_sq]
    rw [sub_iterate, hstat]
    rw [if_neg (not_lt.mpr (le_of_lt bls_sqrt_two_lt_two))]
  have hsC : sub_iterate 1 2 [-2, 2, -2, 2] [1, 1, 1, 1] (2, some 2, some 1) =
      (2, some 2, some 1) := by
    have hstat : sub_iterate_stat 1 2 [-2, 2, -2, 2] [1, 1, 1, 1] = 2 := by
      rw [sub_iterate_stat]
      norm_num [window_sum, window_sum_sq]
      exact bls_sqrt_four
    rw [sub_iterate, hstat]
    norm_num
  have hsD : sub_iterate 1 3 [-2, 2, -2, 2] [1, 1, 1, 1] (2, some 2, some 1) =
      (2, some 2, some 1) := by
    have hstat : sub_iterate_stat 1 3 [-2, 2, -2, 2] [1, 1, 1, 1] = Real.sqrt 2 := by
      rw [sub_iterate_stat]
      norm_num [window_sum, window_sum_sq]
    rw [sub_iterate, hstat]
    rw [if_neg (not_lt.mpr (le_of_lt bls_sqrt_two_lt_two))]
  simp only [period_entry, hinit]
  simp only [hfold]
  rw [iterate_trialp_durations, show windows 2 2 3 1 = [(0, 2), (0, 3), (1, 2), (1, 3)] from rfl]
  simp only [List.foldl_cons, List.foldl_nil, hsA, hsB, hsC, hsD]

lemma bls_w5_entry2 :
    period_entry (3 / 4) 2 0 (1 / 2) [0, 3 / 4] [-2, 2] [1, 1] = (0, none, none) := by
  have hinit : init_iteration (3 / 4) 0 (1 / 2) 2 = (4 / 3, 2, 3, 1) := by
    rw [init_iteration]
    norm_num [Prod.ext_iff]
  have hfold : compute_folded 2 [0, 3 / 4] [-2, 2] [1, 1] (4 / 3) 3 =
      ([0, 0, 0, 0], [1, 0, 1, 0]) := by
    have hb0 : binIndex 0 (4 / 3) 2 = 0 := by norm_num [binIndex]
    have hb1 : binIndex (3 / 4) (4 / 3) 2 = 0 := by norm_num [binIndex]
    simp only [compute_folded, bin_elems, listMean, List.range_succ, List.range_zero,
      List.map_cons, List.map_nil, List.zip_cons_cons, List.zip_nil_right,
      List.nil_append, List.filter, hb0, hb1]
    norm_num
  have hsA : sub_iterate 0 2 [0, 0, 0, 0] [1, 0, 1, 0] (0, none, none) = (0, none, none) := by
    have hstat : sub_iterate_stat 0 2 [0, 0, 0, 0] [1, 0, 1, 0] = 0 := by
      rw [sub_iterate_stat]
      norm_num [window_sum, window_sum_sq]
    rw [sub_iterate, hstat]
    norm_num
  have hsB : sub_iterate 0 3 [0, 0, 0, 0] [1, 0, 1, 0] (0, none, none) = (0, none, none) := by
    have hstat : sub_iterate_stat 0 3 [0, 0, 0, 0] [1, 0, 1, 0] = 0 := by
      rw [sub_iterate_stat]
      norm_num [window_sum, window_sum_sq]
    rw [sub_iterate, hstat]
    norm_num
  have hsC : sub_iterate 1 2 [0, 0, 0, 0] [1, 0, 1, 0] (0, none, none) = (0, none, none) := by
    have hstat : sub_iterate_stat 1 2 [0, 0, 0, 0] [1, 0, 1, 0] = 0 := by
      rw [sub_iterate_stat]
      norm_num [window_sum, window_sum_sq]
    rw [sub_iterate, hstat]
    norm_num
  have hsD : sub_iterate 1 3 [0, 0, 0, 0] [1, 0, 1, 0] (0, none, none) = (0, none, none) := by
    have hstat : sub_iterate_stat 1 3 [0, 0, 0, 0] [1, 0, 1, 0] = 0 := by
      rw [sub_iterate_stat]
      norm_num [window_sum, window_sum_sq]
    rw [sub_iterate, hstat]
    norm_num
  simp only [period_entry, hinit]
  simp only [hfold]
  rw [iterate_trialp_durations, show windows 2 2 3 1 = [(0, 2), (0, 3), (1, 2), (1, 3)] from rfl]
  simp only [List.foldl_cons, List.foldl_nil, hsA, hsB, hsC, hsD]

lemma bls_w5_srMax :
    bls_srMax [((0 : ℝ), (4 : ℝ), (1 : ℝ)), ((3 / 4 : ℝ), (8 : ℝ), (1 : ℝ))]
      (1 / 2) (3 / 4) 0 (1 / 2) 1 2 = [2, 0] := by
  obtain ⟨_, _, he⟩ := bls_w5_cols
  obtain ⟨hw1, hw2⟩ := bls_w5_works
  rw [bls_srMax, bls_w5_grid, hw1, hw2, he]
  simp only [List.map_cons, List.map_nil, bls_w5_entry1, bls_w5_entry2]

lemma bls_w5_span :
    ¬ time_span [((0 : ℝ), (4 : ℝ), (1 : ℝ)), ((3 / 4 : ℝ), (8 : ℝ), (1 : ℝ))] < (3 / 4 : ℝ) := by
  obtain ⟨ht, _, _⟩ := bls_w5_cols
  rw [time_span, ht, show ([0, (3 : ℝ) / 4]).getLastD 0 = 3 / 4 from rfl,
    show ([0, (3 : ℝ) / 4]).headI = 0 from rfl]
  norm_num

lemma bls_w5_pos :
    0 < (bls_core [((0 : ℝ), (4 : ℝ), (1 : ℝ)), ((3 / 4 : ℝ), (8 : ℝ), (1 : ℝ))]
      (1 / 2) (3 / 4) 0 (1 / 2) 1 2).1 := by
  obtain ⟨hc1, _, _⟩ := bls_core_eq
    [((0 : ℝ), (4 : ℝ), (1 : ℝ)), ((3 / 4 : ℝ), (8 : ℝ), (1 : ℝ))] (1 / 2) (3 / 4) 0 (1 / 2) 1 2
  rw [hc1, bls_w5_srMax, npmax]
  norm_num [List.headI, List.foldl]

/-- Witness for C5 (amended) on the two-sample series
`[(0, 4, 1), (3/4, 8, 1)]` with `minper = 1/2`, `maxper = 3/4`,
`nsearch = 1`, `nbins = 2`: the search returns with `bestSr = 2 > 0`;
the normalized curve has 2 entries and peaks at 1 at `bestTrial`. -/
theorem c5_witness :
    0 < 1 ∧ (1 / 2 : ℝ) < 3 / 4 ∧
    (¬ time_span [((0 : ℝ), (4 : ℝ), (1 : ℝ)), ((3 / 4 : ℝ), (8 : ℝ), (1 : ℝ))] < (3 / 4 : ℝ)) ∧
    0 < (bls_core [((0 : ℝ), (4 : ℝ), (1 : ℝ)), ((3 / 4 : ℝ), (8 : ℝ), (1 : ℝ))]
      (1 / 2) (3 / 4) 0 (1 / 2) 1 2).1 ∧
    (bls_core [((0 : ℝ), (4 : ℝ), (1 : ℝ)), ((3 / 4 : ℝ), (8 : ℝ), (1 : ℝ))]
      (1 / 2) (3 / 4) 0 (1 / 2) 1 2).2.1.length = 1 + 1 ∧
    (bls_core [((0 : ℝ), (4 : ℝ), (1 : ℝ)), ((3 / 4 : ℝ), (8 : ℝ), (1 : ℝ))]
      (1 / 2) (3 / 4) 0 (1 / 2) 1 2).2.1.getD
      ((bls_core [((0 : ℝ), (4 : ℝ), (1 : ℝ)), ((3 / 4 : ℝ), (8 : ℝ), (1 : ℝ))]
        (1 / 2) (3 / 4) 0 (1 / 2) 1 2).2.2.1) 0 = 1 :=
  ⟨Nat.zero_lt_one, by norm_num, bls_w5_span, bls_w5_pos,
    (c5_normalized_curve [((0 : ℝ), (4 : ℝ), (1 : ℝ)), ((3 / 4 : ℝ), (8 : ℝ), (1 : ℝ))]
      (1 / 2) (3 / 4) 0 (1 / 2) 1 2 Nat.zero_lt_one (by norm_num)
      bls_w5_span).2.1,
    ((c5_normalized_curve [((0 : ℝ), (4 : ℝ), (1 : ℝ)), ((3 / 4 : ℝ), (8 : ℝ), (1 : ℝ))]
      (1 / 2) (3 / 4) 0 (1 / 2) 1 2 Nat.zero_lt_one (by norm_num)
      bls_w5_span).2.2 bls_w5_pos).2⟩
